import Mathlib

/-!
Verification of the BMAD command registry (`commandRegistry.ts`):
the naming codec (`cliToSlash` / `slashToCli`), the CSV manifest reader
(`parseCsv` / `parseCsvLine`), the registry scan (`CommandRegistry.scan`,
`registerHelpEntry`, `registerAgentActivator`, `registerTaskTool`,
`scanCopilotPromptFiles`) and the query surface (`resolve`, `search`).

Strings are embedded as Lean `String`, with list-of-character workers where
the source manipulates strings character by character.  The filesystem is
embedded as a record of total functions (`FileSys`): a read / listing that
would throw in Node is modelled by `none`, and every `try`/`catch` of the
source appears as the corresponding `Option` match.  Manifest rows are
association lists from column name to value; per the TypeScript manifest
entry types, a column absent from a row is read as the empty string.
-/

namespace BmadSpec

/-- Character replacement used by `cliToSlash`: a colon becomes a dash. -/
def replC (c : Char) : Char := if c = ':' then '-' else c

/-- Embedding of `cliToSlash`: `cli.replaceAll(':', '-')`. -/
def cliToSlash (cli : String) : String := String.mk (cli.data.map replC)

/-- Split a character list on a separator, JavaScript `split(sep)` semantics. -/
def splitCh (sep : Char) : List Char → List (List Char)
  | [] => [[]]
  | c :: cs =>
    if c = sep then [] :: splitCh sep cs
    else (c :: (splitCh sep cs).headI) :: (splitCh sep cs).tail

/-- Join character lists with a separator, JavaScript `join(sep)` semantics. -/
def joinCh (sep : Char) : List (List Char) → List Char
  | [] => []
  | [t] => t
  | t :: ts => t ++ sep :: joinCh sep ts

/-- Split a character list on `'-'`, JavaScript `split('-')` semantics. -/
def splitD : List Char → List (List Char) := splitCh '-'

/-- Join character lists with `'-'`, JavaScript `join('-')` semantics. -/
def joinD : List (List Char) → List Char := joinCh '-'

/-- Embedding of JavaScript `s.trim()` (whitespace stripped from both ends). -/
def jsTrim (s : String) : String :=
  String.mk (((s.data.dropWhile Char.isWhitespace).reverse.dropWhile
    Char.isWhitespace).reverse)

/-- Embedding of JavaScript `s.toLowerCase()` (ASCII case folding). -/
def jsToLower (s : String) : String := String.mk (s.data.map Char.toLower)

/-- Drop the last `n` characters of a string. -/
def jsDropRight (s : String) (n : Nat) : String :=
  String.mk (s.data.take (s.data.length - n))

/-- Remove one leading `'/'` if present: `slash.startsWith('/') ? slash.slice(1) : slash`. -/
def stripSlash (l : List Char) : List Char :=
  match l with
  | c :: rest => if c = '/' then rest else l
  | [] => l

/-- Branching of `slashToCli` on the dash-separated parts of the cleaned name. -/
def slashToCliParts (clean : List Char) (parts : List (List Char)) : List Char :=
  match parts with
  | [] => clean
  | p0 :: ps =>
    if p0 = "bmad".data then
      match ps with
      | [] =>
        -- parts = ['bmad']: the source falls through to the module branch with
        -- parts[1] undefined, and the template literal renders it as "undefined"
        "bmad:undefined:".data
      | p1 :: ps2 =>
        if p1 = "agent".data then
          match ps2 with
          | p2 :: p3 :: ps3 =>
            -- bmad-agent-<module>-<name>, parts.length >= 4
            "bmad:agent:".data ++ p2 ++ ':' :: joinD (p3 :: ps3)
          | _ =>
            -- core agent: bmad-agent-<name>
            "bmad:agent:".data ++ joinD ps2
        else
          match ps2 with
          | [] =>
            -- core task/tool with no module: bmad-<name>
            "bmad:".data ++ p1
          | _ =>
            -- module workflow: bmad-<module>-<workflow-name>
            "bmad:".data ++ p1 ++ ':' :: joinD ps2
    else clean

/-- Worker of `slashToCli` on character lists. -/
def slashToCliL (l : List Char) : List Char :=
  slashToCliParts (stripSlash l) (splitD (stripSlash l))

/-- Embedding of `slashToCli`. -/
def slashToCli (slash : String) : String := String.mk (slashToCliL slash.data)

/-- Embedding of JavaScript `s.startsWith(p)`. -/
def jsStartsWith (s p : String) : Bool := p.data.isPrefixOf s.data

/-- Embedding of JavaScript `s.endsWith(p)`. -/
def jsEndsWith (s p : String) : Bool := p.data.isSuffixOf s.data

/-- Embedding of JavaScript `s.includes(sub)` (substring containment). -/
def jsIncludes (s sub : String) : Bool :=
  s.data.tails.any (fun t => sub.data.isPrefixOf t)

/-- Execution pattern tags of `types.ts` (`PromptPattern`). -/
inductive PromptPattern
  | mdWorkflow
  | yamlWorkflow
  | task
  | agentActivator
  | agentOnly
deriving DecidableEq, Repr

/-- Embedding of `detectPattern`: classify a workflow file by its extension. -/
def detectPattern (workflowFile : String) : PromptPattern :=
  if jsEndsWith workflowFile ".yaml" || jsEndsWith workflowFile ".yml" then
    PromptPattern.yamlWorkflow
  else if jsEndsWith workflowFile ".xml" then PromptPattern.task
  else PromptPattern.mdWorkflow

/-- State machine of `parseCsvLine`: first argument is `inQuotes`, second the
reversed current field, third the remaining characters. -/
def parseCsvLineAux : Bool → List Char → List Char → List (List Char)
  | true, cur, '"' :: '"' :: rest => parseCsvLineAux true ('"' :: cur) rest
  | true, cur, '"' :: rest => parseCsvLineAux false cur rest
  | true, cur, c :: rest => parseCsvLineAux true (c :: cur) rest
  | false, cur, '"' :: rest => parseCsvLineAux true cur rest
  | false, cur, ',' :: rest => cur.reverse :: parseCsvLineAux false [] rest
  | false, cur, c :: rest => parseCsvLineAux false (c :: cur) rest
  | _, cur, [] => [cur.reverse]

/-- Embedding of `parseCsvLine`: split a CSV line into fields, honouring
double-quoted fields and doubled-quote escapes. -/
def parseCsvLine (line : String) : List String :=
  (parseCsvLineAux false [] line.data).map String.mk

/-- Embedding of JavaScript `Map.prototype.set` / object key assignment on an
insertion-ordered association list: replace the value in place if the key is
present, append otherwise. -/
def jsSet {α : Type} (m : List (String × α)) (k : String) (v : α) :
    List (String × α) :=
  if m.any (fun p => p.1 == k) then
    m.map (fun p => if p.1 = k then (k, v) else p)
  else m ++ [(k, v)]

/-- Embedding of JavaScript `Map.prototype.get` / object key lookup. -/
def mapGet {α : Type} (m : List (String × α)) (k : String) : Option α :=
  (m.find? (fun p => p.1 == k)).map (fun p => p.2)

/-- Record-building loop of `parseCsv`: walk the headers, pairing each with the
corresponding value (`values[h] ?? ''`, then trimmed). -/
def buildRecordFrom : List String → List String → List (String × String) →
    List (String × String)
  | [], _, r => r
  | h :: hs, vs, r => buildRecordFrom hs (vs.drop 1) (jsSet r h (jsTrim (vs.headD "")))

/-- Build one CSV record from header tokens and field values. -/
def buildRecord (headers values : List String) : List (String × String) :=
  buildRecordFrom headers values []

/-- Line filter of `parseCsv`: keep lines that are non-blank and not comments
(`l.trim() && !l.startsWith('#')`). -/
def csvLines (csv : String) : List String :=
  ((splitCh '\n' csv.data).map String.mk).filter
    (fun l => !(jsTrim l == "") && !(jsStartsWith l "#"))

/-- Embedding of `parseCsv`: header row plus data rows to records. -/
def parseCsv (csv : String) : List (List (String × String)) :=
  match csvLines csv with
  | [] => []
  | hdr :: rows =>
    if rows.isEmpty then []
    else
      let headers := (parseCsvLine hdr).map jsTrim
      rows.filterMap (fun line =>
        let values := parseCsvLine line
        if values.isEmpty then none
        else some (buildRecord headers values))

/-- Command categories of `types.ts` (`BmadCommand.category`). -/
inductive Category
  | workflow
  | agent
  | task
  | tool
  | core
deriving DecidableEq, Repr

/-- Embedding of the `BmadCommand` record of `types.ts`. -/
structure BmadCommand where
  slashName : String
  cliSyntax : String
  description : String
  category : Category
  module : String
  filePath : String
  agentName : String
  agentTitle : String
  pattern : PromptPattern
  promptFilePath : Option String := none
deriving DecidableEq, Repr

/-- Manifest row: ordered column-name to trimmed-value record from `parseCsv`. -/
abbrev ManifestRow := List (String × String)

/-- Insertion-ordered command map keyed by slash name. -/
abbrev CmdMap := List (String × BmadCommand)

/-- Embedding of the `RegistryState` record of `types.ts`. -/
structure RegistryState where
  bmadDir : String
  commands : CmdMap
  helpEntries : List ManifestRow
  agents : List ManifestRow
  workflows : List ManifestRow
  tasks : List ManifestRow
  tools : List ManifestRow
  modules : List String
  promptFiles : List (String × String)
  hasCopilotFiles : Bool
  lastScan : String
deriving DecidableEq, Repr

/-- Directory entry as returned by `fs.readdirSync(p, { withFileTypes: true })`. -/
structure DirEnt where
  name : String
  isDir : Bool
deriving DecidableEq, Repr

/-- Filesystem world: `pathExists` embeds `fs.existsSync` (which never throws),
`readFile` and `listDir` return `none` where the Node call would throw, and
`now` is the clock value used for the scan timestamp. -/
structure FileSys where
  pathExists : String → Bool
  readFile : String → Option String
  listDir : String → Option (List DirEnt)
  now : String

/-- Read a manifest-row column as the string of the TypeScript entry type
(absent column read as the empty string). -/
def jsStr (r : ManifestRow) (k : String) : String := (mapGet r k).getD ""

/-- Embedding of the JavaScript `||` chain on strings (empty string is falsy). -/
def jsOr (a b : String) : String := if a = "" then b else a

/-- Embedding of `path.join` for the two-argument uses of the source. -/
def joinP (a b : String) : String := a ++ "/" ++ b

/-- Embedding of POSIX `path.dirname` for the walk-up step of `findBmadDir`. -/
def dirnameP (p : String) : String :=
  let segs := (splitCh '/' p.data).map String.mk
  if segs.length ≤ 1 then "."
  else
    let front := segs.dropLast
    if front.all (fun s => s == "") then "/"
    else String.mk (joinCh '/' (front.map String.data))

/-- Embedding of `CommandRegistry.findBmadDir`: look for `_bmad` at the root,
then one level up. -/
def findBmadDir (fs : FileSys) (startDir : String) : Option String :=
  if fs.pathExists (joinP startDir "_bmad") then some (joinP startDir "_bmad")
  else
    let parent := dirnameP startDir
    if parent ≠ startDir then
      if fs.pathExists (joinP parent "_bmad") then some (joinP parent "_bmad")
      else none
    else none

/-- Embedding of `CommandRegistry.loadCsv`: a failed read is caught and yields
an empty row list. -/
def loadCsv (fs : FileSys) (filePath : String) : List ManifestRow :=
  match fs.readFile filePath with
  | some content => parseCsv content
  | none => []

/-- Embedding of `CommandRegistry.detectModules`: list module sub-directories,
returning `[]` when the directory listing throws. -/
def detectModules (fs : FileSys) (bmadDir : String) : List String :=
  match fs.listDir bmadDir with
  | none => []
  | some ents =>
    (ents.filter (fun e =>
      e.isDir && !(e.name == "_config") && !(e.name == "_memory") &&
        !(e.name == "docs") && !(jsStartsWith e.name "."))).map (fun e => e.name)

/-- Insertion idiom shared by the register functions:
`if (!map.has(cmd.slashName)) { map.set(cmd.slashName, cmd); }`. -/
def insertNew (m : CmdMap) (k : String) (c : BmadCommand) : CmdMap :=
  if (mapGet m k).isSome then m else m ++ [(k, c)]

/-- Embedding of `CommandRegistry.registerHelpEntry`. -/
def registerHelpEntry (entry : ManifestRow) (m : CmdMap) : CmdMap :=
  let commandName := jsTrim (jsStr entry "command")
  if commandName = "" then m
  else
    let workflowFile := jsTrim (jsStr entry "workflow-file")
    let pattern :=
      if workflowFile = "" then PromptPattern.mdWorkflow
      else detectPattern workflowFile
    let cmd : BmadCommand :=
      { slashName := commandName
        cliSyntax := slashToCli commandName
        description := jsOr (jsStr entry "description")
          (jsOr (jsStr entry "name") commandName)
        category := Category.workflow
        module := jsOr (jsStr entry "module") "core"
        filePath := workflowFile
        agentName := jsStr entry "agent-name"
        agentTitle := jsStr entry "agent-title"
        pattern := pattern
        promptFilePath := none }
    insertNew m commandName cmd

/-- Embedding of `CommandRegistry.registerAgentActivator`. -/
def registerAgentActivator (agent : ManifestRow) (m : CmdMap) : CmdMap :=
  let mod := jsOr (jsStr agent "module") "core"
  let slashName :=
    if mod = "core" then "bmad-agent-" ++ jsStr agent "name"
    else "bmad-agent-" ++ mod ++ "-" ++ jsStr agent "name"
  let cmd : BmadCommand :=
    { slashName := slashName
      cliSyntax := slashToCli slashName
      description :=
        jsTrim ((jsOr (jsStr agent "icon") "") ++ " " ++
          jsOr (jsStr agent "displayName") (jsStr agent "name") ++ " — " ++
          jsOr (jsStr agent "title") (jsOr (jsStr agent "role") "Agent"))
      category := Category.agent
      module := mod
      filePath := jsOr (jsStr agent "path") ""
      agentName := jsStr agent "name"
      agentTitle := jsTrim ((jsOr (jsStr agent "icon") "") ++ " " ++
        (jsOr (jsStr agent "title") ""))
      pattern := PromptPattern.agentActivator
      promptFilePath := none }
  insertNew m slashName cmd

/-- Embedding of `CommandRegistry.registerTaskTool`. -/
def registerTaskTool (entry : ManifestRow) (category : Category) (m : CmdMap) :
    CmdMap :=
  let mod := jsOr (jsStr entry "module") "core"
  let slashName :=
    if mod = "core" then "bmad-" ++ jsStr entry "name"
    else "bmad-" ++ mod ++ "-" ++ jsStr entry "name"
  let cmd : BmadCommand :=
    { slashName := slashName
      cliSyntax := slashToCli slashName
      description := jsOr (jsStr entry "description")
        (jsOr (jsStr entry "displayName") (jsStr entry "name"))
      category := category
      module := mod
      filePath := jsOr (jsStr entry "path") ""
      agentName := ""
      agentTitle := ""
      pattern := PromptPattern.task
      promptFilePath := none }
  insertNew m slashName cmd

/-- Map-building phase of `CommandRegistry.scan`: help-catalog rows first, then
agent activators, then tasks, then tools. -/
def buildCommands (helps agents tasks tools : List ManifestRow) : CmdMap :=
  let m1 := helps.foldl (fun m e => registerHelpEntry e m) []
  let m2 := agents.foldl (fun m e => registerAgentActivator e m) m1
  let m3 := tasks.foldl (fun m e => registerTaskTool e Category.task m) m2
  tools.foldl (fun m e => registerTaskTool e Category.tool m) m3

/-- Strip an anchored suffix, embedding `file.replace(/\.suffix$/, '')` for the
already-suffix-checked file names of the link pass. -/
def stripSuffix (s suf : String) : String :=
  if jsEndsWith s suf then jsDropRight s suf.data.length else s

/-- Embedding of the regular expression `/^bmad-([^-]+)-agents-(.+)$/` of the
agent-file branch of the link pass. -/
def agentFileMatch (slashName : String) : Option (String × String) :=
  if "bmad-".data.isPrefixOf slashName.data then
    let r := slashName.data.drop 5
    let m1 := r.takeWhile (fun c => c != '-')
    let rest := r.drop m1.length
    if m1.isEmpty then none
    else if "-agents-".data.isPrefixOf rest then
      let m2 := rest.drop 8
      if m2.isEmpty then none else some (String.mk m1, String.mk m2)
    else none
  else none

/-- Set `promptFilePath` on the command stored under `key`, if any — the pure
rendering of `commands.get(slashName).promptFilePath = absPath`. -/
def linkCmd (m : CmdMap) (key absPath : String) : CmdMap :=
  m.map (fun p =>
    if p.1 = key then (p.1, { p.2 with promptFilePath := some absPath }) else p)

/-- Accumulator of the link pass: prompt-file map, command map, `foundAny`. -/
abbrev LinkAcc := List (String × String) × CmdMap × Bool

/-- Per-file step of the `.github/prompts` loop of `scanCopilotPromptFiles`. -/
def linkPromptFile (promptsDir : String) (acc : LinkAcc) (fileName : String) :
    LinkAcc :=
  if jsStartsWith fileName "bmad" && jsEndsWith fileName ".prompt.md" then
    let slashName := stripSuffix fileName ".prompt.md"
    let absPath := joinP promptsDir fileName
    (jsSet acc.1 slashName absPath, linkCmd acc.2.1 slashName absPath, true)
  else acc

/-- Per-file step of the `.github/agents` loop of `scanCopilotPromptFiles`. -/
def linkAgentFile (agentsDir : String) (acc : LinkAcc) (fileName : String) :
    LinkAcc :=
  if jsStartsWith fileName "bmad" && jsEndsWith fileName ".agent.md" then
    let slashName := stripSuffix fileName ".agent.md"
    let absPath := joinP agentsDir fileName
    let cmds :=
      match agentFileMatch slashName with
      | some (m1, m2) =>
        linkCmd acc.2.1 ("bmad-agent-" ++ m1 ++ "-" ++ m2) absPath
      | none => acc.2.1
    (jsSet acc.1 slashName absPath, cmds, true)
  else acc

/-- Embedding of `CommandRegistry.scanCopilotPromptFiles`, the link pass run on
the already-assigned snapshot: a directory-listing failure is caught and skips
that directory. -/
def scanCopilotPromptFiles (fs : FileSys) (workspaceRoot : String)
    (st : RegistryState) : RegistryState :=
  let promptsDir := joinP (joinP workspaceRoot ".github") "prompts"
  let agentsDir := joinP (joinP workspaceRoot ".github") "agents"
  let acc0 : LinkAcc := (st.promptFiles, st.commands, false)
  let acc1 :=
    if fs.pathExists promptsDir then
      match fs.listDir promptsDir with
      | some ents => (ents.map (fun e => e.name)).foldl (linkPromptFile promptsDir) acc0
      | none => acc0
    else acc0
  let acc2 :=
    if fs.pathExists agentsDir then
      match fs.listDir agentsDir with
      | some ents => (ents.map (fun e => e.name)).foldl (linkAgentFile agentsDir) acc1
      | none => acc1
    else acc1
  { st with
      promptFiles := acc2.1
      commands := acc2.2.1
      hasCopilotFiles := acc2.2.2 }

/-- Snapshot value assigned to `this._state` at the end of the map-building
phase of `CommandRegistry.scan`, before the link pass runs. -/
def scanAssigned (fs : FileSys) (workspaceRoot : String)
    (overrideBmadDir : Option String) : Option RegistryState :=
  let bmadDirOpt :=
    match overrideBmadDir with
    | some s => if s = "" then findBmadDir fs workspaceRoot else some s
    | none => findBmadDir fs workspaceRoot
  match bmadDirOpt with
  | none => none
  | some bmadDir =>
    let configDir := joinP bmadDir "_config"
    if !(fs.pathExists configDir) then none
    else
      let helpEntries := loadCsv fs (joinP configDir "bmad-help.csv")
      let agents := loadCsv fs (joinP configDir "agent-manifest.csv")
      let workflows := loadCsv fs (joinP configDir "workflow-manifest.csv")
      let tasks := loadCsv fs (joinP configDir "task-manifest.csv")
      let tools := loadCsv fs (joinP configDir "tool-manifest.csv")
      some
        { bmadDir := bmadDir
          commands := buildCommands helpEntries agents tasks tools
          helpEntries := helpEntries
          agents := agents
          workflows := workflows
          tasks := tasks
          tools := tools
          modules := detectModules fs bmadDir
          promptFiles := []
          hasCopilotFiles := false
          lastScan := fs.now }

/-- Embedding of `CommandRegistry.scan`: build the snapshot, then run the link
pass over it; the returned value is the registry state after the scan. -/
def scan (fs : FileSys) (workspaceRoot : String)
    (overrideBmadDir : Option String) : Option RegistryState :=
  match scanAssigned fs workspaceRoot overrideBmadDir with
  | none => none
  | some st => some (scanCopilotPromptFiles fs workspaceRoot st)

/-- Embedding of `CommandRegistry.resolve` over the current (possibly null)
registry state. -/
def resolve (state : Option RegistryState) (slashName : String) :
    Option BmadCommand :=
  let key := String.mk (stripSlash slashName.data)
  match state with
  | none => none
  | some st => mapGet st.commands key

/-- Match predicate of `CommandRegistry.search`: case-insensitive substring
test against the slash name and the description. -/
def searchMatch (query : String) (cmd : BmadCommand) : Bool :=
  jsIncludes (jsToLower cmd.slashName) (jsToLower query) ||
    jsIncludes (jsToLower cmd.description) (jsToLower query)

/-- Result loop of `CommandRegistry.search`: push matches, break once the
result list has reached `limit` (checked after each push, as in the source). -/
def searchLoop (query : String) (limit : Nat) (acc : List BmadCommand) :
    List BmadCommand → List BmadCommand
  | [] => acc
  | cmd :: rest =>
    let acc2 := if searchMatch query cmd then acc ++ [cmd] else acc
    if limit ≤ acc2.length then acc2 else searchLoop query limit acc2 rest

/-- Embedding of `CommandRegistry.search` over the current (possibly null)
registry state; `limit` defaults to 20 in the source. -/
def search (state : Option RegistryState) (query : String) (limit : Nat) :
    List BmadCommand :=
  match state with
  | none => []
  | some st => searchLoop query limit [] (st.commands.map (fun p => p.2))

/-- Forget the link-pass field of a command record (used to state which fields
the link pass may touch). -/
def eraseLink (c : BmadCommand) : BmadCommand := { c with promptFilePath := none }

/-- Forget the link-pass field under a command-map entry. -/
def erasePair (p : String × BmadCommand) : String × BmadCommand :=
  (p.1, eraseLink p.2)

/-- Concrete help-catalog manifest with one row. -/
def helpCsvA : String :=
  "module,command,description\nbmm,bmad-bmm-create-prd,Create PRD"

/-- Concrete workspace: a `_bmad` installation whose only manifest is the
one-row help catalog; no Copilot prompt directories. -/
def fsA : FileSys :=
  { pathExists := fun p => p == "/w/_bmad" || p == "/w/_bmad/_config"
    readFile := fun p =>
      if p == "/w/_bmad/_config/bmad-help.csv" then some helpCsvA else none
    listDir := fun _ => none
    now := "t" }

/-- Concrete workspace `fsA` extended with one Copilot prompt file. -/
def fsB : FileSys :=
  { pathExists := fun p =>
      p == "/w/_bmad" || p == "/w/_bmad/_config" || p == "/w/.github/prompts"
    readFile := fun p =>
      if p == "/w/_bmad/_config/bmad-help.csv" then some helpCsvA else none
    listDir := fun p =>
      if p == "/w/.github/prompts" then
        some [{ name := "bmad-bmm-create-prd.prompt.md", isDir := false }]
      else none
    now := "t" }

/-- Help catalog whose row's command identifier does not start with `bmad`. -/
def badHelpCsv : String := "module,command,description\ncore,foo-x,Rogue row"

/-- Concrete workspace whose help catalog contains the rogue row. -/
def fsBad : FileSys :=
  { pathExists := fun p => p == "/w/_bmad" || p == "/w/_bmad/_config"
    readFile := fun p =>
      if p == "/w/_bmad/_config/bmad-help.csv" then some badHelpCsv else none
    listDir := fun _ => none
    now := "t" }

/-- Filesystem where every path exists but every read and listing throws. -/
def fsErr : FileSys :=
  { pathExists := fun _ => true
    readFile := fun _ => none
    listDir := fun _ => none
    now := "t" }

/-- Filesystem with no paths at all. -/
def fsNone : FileSys :=
  { pathExists := fun _ => false
    readFile := fun _ => none
    listDir := fun _ => none
    now := "t" }

/-- Concrete help-catalog row naming command `bmad-bmm-create-prd`. -/
def helpRowW : ManifestRow :=
  [("module", "bmm"), ("command", "bmad-bmm-create-prd"),
   ("description", "Create PRD"), ("workflow-file", "x.md")]

/-- Concrete task row that synthesizes the same external name. -/
def taskRowW : ManifestRow :=
  [("module", "bmm"), ("name", "create-prd"), ("description", "Duplicate task row")]

/-- Concrete agent row. -/
def agentRowW : ManifestRow := [("module", "bmm"), ("name", "pm")]

/-- Command record produced by `registerHelpEntry` from `helpRowW`. -/
def cmdHW : BmadCommand :=
  { slashName := "bmad-bmm-create-prd"
    cliSyntax := "bmad:bmm:create-prd"
    description := "Create PRD"
    category := Category.workflow
    module := "bmm"
    filePath := "x.md"
    agentName := ""
    agentTitle := ""
    pattern := PromptPattern.mdWorkflow
    promptFilePath := none }

/-- Concrete registry snapshot holding the single command `cmdHW`. -/
def stW : RegistryState :=
  { bmadDir := "/w/_bmad"
    commands := [("bmad-bmm-create-prd", cmdHW)]
    helpEntries := []
    agents := []
    workflows := []
    tasks := []
    tools := []
    modules := []
    promptFiles := []
    hasCopilotFiles := false
    lastScan := "t" }

/-- Command record produced by `registerAgentActivator` from `agentRowW`. -/
def cmdAW : BmadCommand :=
  { slashName := "bmad-agent-bmm-pm"
    cliSyntax := "bmad:agent:bmm:pm"
    description := "pm — Agent"
    category := Category.agent
    module := "bmm"
    filePath := ""
    agentName := "pm"
    agentTitle := ""
    pattern := PromptPattern.agentActivator
    promptFilePath := none }

/-- Record parsed from the data row of `helpCsvA`. -/
def recW : ManifestRow :=
  [("module", "bmm"), ("command", "bmad-bmm-create-prd"),
   ("description", "Create PRD")]

/-!  Helper lemmas about the association-list map. -/

theorem mapGet_append_left {α : Type} (m l : List (String × α)) (k : String)
    (c : α) (h : mapGet m k = some c) : mapGet (m ++ l) k = some c := by
  unfold mapGet at h ⊢
  rcases hf : m.find? (fun p => p.1 == k) with _ | x
  · rw [hf] at h; simp at h
  · rw [List.find?_append, hf]
    rw [hf] at h
    simpa using h

theorem mapGet_append_one {α : Type} (m : List (String × α))
    (x : String × α) (k : String) (c : α) (h : mapGet m k = some c) :
    mapGet (m ++ [x]) k = some c :=
  mapGet_append_left m [x] k c h

theorem insertNew_preserves (m : CmdMap) (k2 : String) (c2 : BmadCommand)
    (k : String) (c : BmadCommand) (h : mapGet m k = some c) :
    mapGet (insertNew m k2 c2) k = some c := by
  unfold insertNew
  split
  · exact h
  · exact mapGet_append_one m _ k c h

theorem registerHelpEntry_preserves (e : ManifestRow) (m : CmdMap)
    (k : String) (c : BmadCommand) (h : mapGet m k = some c) :
    mapGet (registerHelpEntry e m) k = some c := by
  simp only [registerHelpEntry]
  split
  · exact h
  · exact insertNew_preserves m _ _ k c h

theorem registerAgentActivator_preserves (e : ManifestRow) (m : CmdMap)
    (k : String) (c : BmadCommand) (h : mapGet m k = some c) :
    mapGet (registerAgentActivator e m) k = some c := by
  simp only [registerAgentActivator]
  exact insertNew_preserves m _ _ k c h

theorem registerTaskTool_preserves (e : ManifestRow) (cat : Category)
    (m : CmdMap) (k : String) (c : BmadCommand) (h : mapGet m k = some c) :
    mapGet (registerTaskTool e cat m) k = some c := by
  simp only [registerTaskTool]
  exact insertNew_preserves m _ _ k c h

theorem foldl_preserves_mapGet {β : Type} (f : CmdMap → β → CmdMap)
    (hf : ∀ m e k c, mapGet m k = some c → mapGet (f m e) k = some c) :
    ∀ (l : List β) (m : CmdMap) (k : String) (c : BmadCommand),
      mapGet m k = some c → mapGet (l.foldl f m) k = some c := by
  intro l
  induction l with
  | nil => intro m k c h; simpa using h
  | cons e es ih =>
    intro m k c h
    exact ih (f m e) k c (hf m e k c h)

/-- Claim C1: commands derived from the help catalog (`bmad-help.csv`) are
registered before agent, task and tool rows, and an insertion for an external
name already present in the map is dropped, so whenever the help-catalog phase
stores a command under some external name, that same record — not any later
agent/task/tool definition of the name — is what the finished command map
holds, regardless of which manifests also define the name. -/
theorem help_catalog_first_ingested_wins
    (helps agents tasks tools : List ManifestRow) (n : String)
    (c : BmadCommand)
    (h : mapGet (helps.foldl (fun m e => registerHelpEntry e m) []) n = some c) :
    mapGet (buildCommands helps agents tasks tools) n = some c := by
  unfold buildCommands
  apply foldl_preserves_mapGet _ (fun m e k c h => registerTaskTool_preserves e Category.tool m k c h)
  apply foldl_preserves_mapGet _ (fun m e k c h => registerTaskTool_preserves e Category.task m k c h)
  apply foldl_preserves_mapGet _ (fun m e k c h => registerAgentActivator_preserves e m k c h)
  exact h

/-- Witness for C1: with a help row and a task row both defining
`bmad-bmm-create-prd`, the help-derived record (category `workflow`) is the
one in the final map. -/
theorem help_catalog_first_ingested_wins_witness :
    mapGet ([helpRowW].foldl (fun m e => registerHelpEntry e m) [])
        "bmad-bmm-create-prd" = some cmdHW ∧
      mapGet (buildCommands [helpRowW] [agentRowW] [taskRowW] [])
        "bmad-bmm-create-prd" = some cmdHW :=
  ⟨by decide,
    help_catalog_first_ingested_wins [helpRowW] [agentRowW] [taskRowW] []
      "bmad-bmm-create-prd" cmdHW (by decide)⟩

/-- Claim C7: a scan of a root with no `_bmad` directory (at the root or one
level up) returns `null`; an explicit override directory lacking `_config`
also yields `null`; and on a filesystem where every path exists but every read
and directory listing fails, the scan still completes with a snapshot instead
of propagating an error. -/
theorem scan_io_failures_yield_none_not_throw :
    (∀ (fs : FileSys) (root : String),
      fs.pathExists (joinP root "_bmad") = false →
      fs.pathExists (joinP (dirnameP root) "_bmad") = false →
      scan fs root none = none) ∧
    (∀ (fs : FileSys) (root ov : String),
      ov ≠ "" → fs.pathExists (joinP ov "_config") = false →
      scan fs root (some ov) = none) ∧
    (scan fsErr "/w" none).isSome = true := by
  refine ⟨?_, ?_, by decide⟩
  · intro fs root h1 h2
    simp [scan, scanAssigned, findBmadDir, h1, h2]
  · intro fs root ov hov h
    simp [scan, scanAssigned, hov, h]

/-- Witness for C7 at concrete inputs. -/
theorem scan_io_failures_yield_none_not_throw_witness :
    (fsNone.pathExists (joinP "/w" "_bmad") = false ∧
      fsNone.pathExists (joinP (dirnameP "/w") "_bmad") = false ∧
      scan fsNone "/w" none = none) ∧
    ("/x" ≠ "" ∧ fsNone.pathExists (joinP "/x" "_config") = false ∧
      scan fsNone "/w" (some "/x") = none) :=
  ⟨⟨by decide, by decide,
      scan_io_failures_yield_none_not_throw.1 fsNone "/w" (by decide) (by decide)⟩,
    ⟨by decide, by decide,
      scan_io_failures_yield_none_not_throw.2.1 fsNone "/w" "/x" (by decide) (by decide)⟩⟩

/-- Claim C10: while the registry state is still null (before any successful
scan), `resolve` returns the not-found result for every name and `search`
returns the empty list for every query and limit. -/
theorem null_state_query_surface_total_empty :
    ∀ (name query : String) (limit : Nat),
      resolve none name = none ∧ search none query limit = [] := by
  intro name query limit
  exact ⟨rfl, rfl⟩

theorem slashToCliParts_of_head_ne (clean : List Char)
    (parts : List (List Char)) (h : parts.headI ≠ "bmad".data) :
    slashToCliParts clean parts = clean := by
  cases parts with
  | nil => rfl
  | cons p0 ps =>
    simp only [List.headI] at h
    simp [slashToCliParts, h]

/-- Counterexample to claim C5 as stated: `/foo-bar` has first dash token
`foo`, which is not the root prefix, yet `slashToCli` does not return the
input unchanged — it returns the input with the leading slash stripped. -/
theorem slashToCli_not_input_on_leading_slash :
    (splitD (stripSlash "/foo-bar".data)).headI ≠ "bmad".data ∧
      slashToCli "/foo-bar" ≠ "/foo-bar" :=
  ⟨by decide, by decide⟩

/-- Claim C5 (amended): for every input whose first dash-separated token after
stripping a leading slash is not the root prefix `bmad`, `slashToCli` returns
the slash-stripped input unchanged (hence the input itself when it has no
leading slash). -/
theorem slashToCli_passthrough_strips_slash (s : String)
    (h : (splitD (stripSlash s.data)).headI ≠ "bmad".data) :
    slashToCli s = String.mk (stripSlash s.data) := by
  unfold slashToCli slashToCliL
  rw [slashToCliParts_of_head_ne _ _ h]

/-- Witness for the amended C5 at the concrete input `/foo-bar`. -/
theorem slashToCli_passthrough_strips_slash_witness :
    (splitD (stripSlash "/foo-bar".data)).headI ≠ "bmad".data ∧
      slashToCli "/foo-bar" = String.mk (stripSlash "/foo-bar".data) :=
  ⟨by decide, slashToCli_passthrough_strips_slash "/foo-bar" (by decide)⟩

theorem searchLoop_spec (q : String) (limit : Nat) :
    ∀ (cs acc : List BmadCommand), acc.length < limit →
      searchLoop q limit acc cs =
        acc ++ (cs.filter (searchMatch q)).take (limit - acc.length) := by
  intro cs
  induction cs with
  | nil => intro acc h; simp [searchLoop]
  | cons c rest ih =>
    intro acc h
    simp only [searchLoop]
    by_cases hm : searchMatch q c
    · rw [if_pos hm]
      by_cases hl : limit ≤ (acc ++ [c]).length
      · rw [if_pos hl]
        have hlen : limit - acc.length = 1 := by
          simp only [List.length_append, List.length_singleton] at hl
          omega
        simp [List.filter_cons, hm, hlen]
      · rw [if_neg hl]
        have h2 : (acc ++ [c]).length < limit := Nat.lt_of_not_le hl
        rw [ih (acc ++ [c]) h2]
        have hlen : limit - acc.length = (limit - (acc ++ [c]).length) + 1 := by
          simp only [List.length_append, List.length_singleton]
          simp only [List.length_append, List.length_singleton] at h2
          omega
        simp [List.filter_cons, hm, hlen, List.take_succ_cons]
    · rw [if_neg hm, if_neg (by omega)]
      rw [ih acc h]
      simp [List.filter_cons, hm]

/-- Counterexample to claim C8 as stated: with limit `0`, the loop's break
check runs only after a push, so a matching command is still returned and the
result is not truncated to at most `limit` elements. -/
theorem search_limit_zero_exceeds :
    ¬ (search (scan fsA "/w" none) "prd" 0).length ≤ 0 := by decide

/-- Claim C8 (amended): for every snapshot, query and limit at least 1,
`search` returns exactly the commands of the snapshot whose slash name or
description contains the query case-insensitively, in map insertion order,
truncated to the first `limit` matches; at limit `0` the source can instead
return one result. -/
theorem search_filter_take (st : RegistryState) (q : String) (limit : Nat)
    (h : 1 ≤ limit) :
    search (some st) q limit =
      ((st.commands.map (fun p => p.2)).filter (searchMatch q)).take limit := by
  have hs : search (some st) q limit =
      searchLoop q limit [] (st.commands.map (fun p => p.2)) := rfl
  rw [hs, searchLoop_spec q limit _ [] (by simpa using h)]
  simp

/-- Witness for the amended C8 on a concrete snapshot. -/
theorem search_filter_take_witness :
    1 ≤ 20 ∧
      search (some stW) "prd" 20 =
        ((stW.commands.map (fun p => p.2)).filter (searchMatch "prd")).take 20 :=
  ⟨by decide, search_filter_take stW "prd" 20 (by decide)⟩

theorem data_append (a b : String) : (a ++ b).data = a.data ++ b.data := by
  cases a
  cases b
  rfl

theorem linkCmd_erase (m : CmdMap) (k a : String) :
    (linkCmd m k a).map erasePair = m.map erasePair := by
  unfold linkCmd
  rw [List.map_map]
  apply List.map_congr_left
  intro p _
  by_cases hp : p.1 = k
  · simp [hp, Function.comp, erasePair, eraseLink]
  · simp [hp, Function.comp]

theorem linkPromptFile_erase (d : String) (acc : LinkAcc) (f : String) :
    ((linkPromptFile d acc f).2.1).map erasePair = (acc.2.1).map erasePair := by
  unfold linkPromptFile
  split
  · exact linkCmd_erase _ _ _
  · rfl

theorem linkAgentFile_erase (d : String) (acc : LinkAcc) (f : String) :
    ((linkAgentFile d acc f).2.1).map erasePair = (acc.2.1).map erasePair := by
  unfold linkAgentFile
  split
  · rcases hm : agentFileMatch (stripSuffix f ".agent.md") with _ | ⟨m1, m2⟩
    · simp [hm]
    · simp [hm, linkCmd_erase]
  · rfl

theorem foldl_link_erase (g : LinkAcc → String → LinkAcc)
    (hg : ∀ acc f, ((g acc f).2.1).map erasePair = (acc.2.1).map erasePair) :
    ∀ (files : List String) (acc : LinkAcc),
      ((files.foldl g acc).2.1).map erasePair = (acc.2.1).map erasePair := by
  intro files
  induction files with
  | nil => intro acc; rfl
  | cons f fs ih => intro acc; rw [List.foldl_cons, ih, hg]

/-- Counterexample to claim C2 as stated: on workspace `fsB`, the snapshot
assigned as the registry's current state at the end of the map-building phase
of the scan is afterwards — still inside the same scan, during the link
pass — changed in place: `hasCopilotFiles` flips from `false` to `true` and
the `promptFilePath` field of the live `bmad-bmm-create-prd` record is set. -/
theorem snapshot_changed_after_assignment_by_link_pass :
    ((scanAssigned fsB "/w" none).map (fun st => st.hasCopilotFiles)
        = some false) ∧
      ((scan fsB "/w" none).map (fun st => st.hasCopilotFiles) = some true) ∧
      ((scanAssigned fsB "/w" none).map
          (fun st => (mapGet st.commands "bmad-bmm-create-prd").map
            (fun c => c.promptFilePath)) = some (some none)) ∧
      ((scan fsB "/w" none).map
          (fun st => (mapGet st.commands "bmad-bmm-create-prd").map
            (fun c => c.promptFilePath)) =
        some (some (some "/w/.github/prompts/bmad-bmm-create-prd.prompt.md"))) :=
  ⟨by decide, by decide, by decide, by decide⟩

/-- Claim C2 (amended): the snapshot assigned as the registry state is still
mutated in place by the link pass of the same scan, but only in its
`promptFiles`, `hasCopilotFiles` fields and the `promptFilePath` field of
command records; every other snapshot field, and every other field of every
command record (including the key set and its order), is left untouched, and
the scan's result is exactly the assigned snapshot transformed by the link
pass — a later scan builds a wholly new snapshot. -/
theorem link_pass_mutates_only_link_fields (fs : FileSys) (root : String)
    (st : RegistryState) :
    (scanCopilotPromptFiles fs root st).bmadDir = st.bmadDir ∧
      (scanCopilotPromptFiles fs root st).helpEntries = st.helpEntries ∧
      (scanCopilotPromptFiles fs root st).agents = st.agents ∧
      (scanCopilotPromptFiles fs root st).workflows = st.workflows ∧
      (scanCopilotPromptFiles fs root st).tasks = st.tasks ∧
      (scanCopilotPromptFiles fs root st).tools = st.tools ∧
      (scanCopilotPromptFiles fs root st).modules = st.modules ∧
      (scanCopilotPromptFiles fs root st).lastScan = st.lastScan ∧
      (scanCopilotPromptFiles fs root st).commands.map erasePair
        = st.commands.map erasePair ∧
      (∀ ov, scan fs root ov
        = (scanAssigned fs root ov).map (scanCopilotPromptFiles fs root)) := by
  refine ⟨rfl, rfl, rfl, rfl, rfl, rfl, rfl, rfl, ?_, ?_⟩
  · simp only [scanCopilotPromptFiles]
    repeat' split
    all_goals
      simp only [foldl_link_erase _ (linkAgentFile_erase _),
        foldl_link_erase _ (linkPromptFile_erase _)]
  · intro ov
    unfold scan
    cases scanAssigned fs root ov with
    | none => rfl
    | some st2 => rfl

theorem bmadAgentDashData :
    "bmad-agent-".data = "bmad-".data ++ "agent-".data := by decide

theorem bmadDashData : "bmad-".data = "bmad-".data ++ [] := by decide

theorem registerHelpEntry_keys (e : ManifestRow) (m : CmdMap)
    (P : String × BmadCommand → Prop)
    (hnew : ∀ c, P ((jsTrim (jsStr e "command")), c))
    (hm : ∀ p ∈ m, P p) :
    ∀ p ∈ registerHelpEntry e m, P p := by
  intro p hp
  simp only [registerHelpEntry, insertNew] at hp
  split at hp
  · exact hm p hp
  · split at hp
    · exact hm p hp
    · rcases List.mem_append.mp hp with h1 | h2
      · exact hm p h1
      · rw [List.mem_singleton.mp h2]
        exact hnew _

theorem registerAgentActivator_keys (e : ManifestRow) (m : CmdMap)
    (hm : ∀ p ∈ m, ∃ r, p.1.data = "bmad-".data ++ r) :
    ∀ p ∈ registerAgentActivator e m, ∃ r, p.1.data = "bmad-".data ++ r := by
  intro p hp
  simp only [registerAgentActivator, insertNew] at hp
  split at hp <;> split at hp
  · exact hm p hp
  · rcases List.mem_append.mp hp with h1 | h2
    · exact hm p h1
    · rw [List.mem_singleton.mp h2]
      exact ⟨"agent-".data ++ (jsStr e "name").data,
        by simp [data_append, bmadAgentDashData]⟩
  · exact hm p hp
  · rcases List.mem_append.mp hp with h1 | h2
    · exact hm p h1
    · rw [List.mem_singleton.mp h2]
      exact ⟨"agent-".data ++ (jsOr (jsStr e "module") "core").data ++
          "-".data ++ (jsStr e "name").data,
        by simp [data_append, bmadAgentDashData]⟩

theorem registerTaskTool_keys (e : ManifestRow) (cat : Category) (m : CmdMap)
    (hm : ∀ p ∈ m, ∃ r, p.1.data = "bmad-".data ++ r) :
    ∀ p ∈ registerTaskTool e cat m, ∃ r, p.1.data = "bmad-".data ++ r := by
  intro p hp
  simp only [registerTaskTool, insertNew] at hp
  split at hp <;> split at hp
  · exact hm p hp
  · rcases List.mem_append.mp hp with h1 | h2
    · exact hm p h1
    · rw [List.mem_singleton.mp h2]
      exact ⟨(jsStr e "name").data, by simp [data_append]⟩
  · exact hm p hp
  · rcases List.mem_append.mp hp with h1 | h2
    · exact hm p h1
    · rw [List.mem_singleton.mp h2]
      exact ⟨(jsOr (jsStr e "module") "core").data ++ "-".data ++
          (jsStr e "name").data, by simp [data_append]⟩

theorem foldl_keys_inv {β : Type} (f : CmdMap → β → CmdMap)
    (P : String × BmadCommand → Prop)
    (hf : ∀ m e, (∀ p ∈ m, P p) → ∀ p ∈ f m e, P p) :
    ∀ (l : List β) (m : CmdMap), (∀ p ∈ m, P p) → ∀ p ∈ l.foldl f m, P p := by
  intro l
  induction l with
  | nil => intro m hm; simpa using hm
  | cons e es ih => intro m hm; exact ih (f m e) (hf m e hm)

/-- Counterexample to claim C3 as stated: a help-catalog row whose command
identifier is `foo-x` is not rejected during ingestion — the scan stores it in
the command map under a key that does not begin with `bmad`. -/
theorem non_bmad_key_stored_from_catalog_row :
    ((scan fsBad "/w" none).map
        (fun st => (mapGet st.commands "foo-x").isSome) = some true) ∧
      jsStartsWith "foo-x" "bmad" = false :=
  ⟨by decide, by decide⟩

/-- Claim C3 (amended): every key synthesized by agent, task and tool
registration begins with the literal prefix `bmad-`; help-catalog rows,
however, are stored under their command identifier verbatim (only an empty
identifier is rejected), so a catalog row can introduce a key without the
prefix. -/
theorem synthesized_keys_start_with_bmad (agents tasks tools : List ManifestRow)
    (p : String × BmadCommand) (hp : p ∈ buildCommands [] agents tasks tools) :
    ∃ r, p.1.data = "bmad-".data ++ r := by
  unfold buildCommands at hp
  simp only [List.foldl_nil] at hp
  refine foldl_keys_inv _ _ (fun m e hm => registerTaskTool_keys e Category.tool m hm)
    tools _ ?_ p hp
  refine foldl_keys_inv _ _ (fun m e hm => registerTaskTool_keys e Category.task m hm)
    tasks _ ?_
  refine foldl_keys_inv _ _ (fun m e hm => registerAgentActivator_keys e m hm)
    agents _ ?_
  intro q hq
  simp at hq

/-- Witness for the amended C3: the agent row `agentRowW` synthesizes the key
`bmad-agent-bmm-pm`, which carries the `bmad-` prefix. -/
theorem synthesized_keys_start_with_bmad_witness :
    ("bmad-agent-bmm-pm", cmdAW) ∈ buildCommands [] [agentRowW] [] [] ∧
      ∃ r, ("bmad-agent-bmm-pm" : String).data = "bmad-".data ++ r :=
  ⟨by decide,
    synthesized_keys_start_with_bmad [agentRowW] [] []
      ("bmad-agent-bmm-pm", cmdAW) (by decide)⟩

theorem mapGet_cons {α : Type} (p : String × α) (ps : List (String × α))
    (k : String) :
    mapGet (p :: ps) k = if p.1 = k then some p.2 else mapGet ps k := by
  by_cases hp : p.1 = k
  · simp [mapGet, List.find?_cons, hp]
  · simp [mapGet, List.find?_cons, hp]

theorem jsSet_get_self {α : Type} (m : List (String × α)) (k : String) (v : α) :
    mapGet (jsSet m k v) k = some v := by
  unfold jsSet
  split
  · rename_i hany
    induction m with
    | nil => simp at hany
    | cons p ps ih =>
      by_cases hp : p.1 = k
      · simp [List.map_cons, mapGet_cons, hp]
      · have hany2 : ps.any (fun q => q.1 == k) = true := by
          simp only [List.any_cons, Bool.or_eq_true, beq_iff_eq] at hany
          rcases hany with h | h
          · exact absurd h hp
          · simpa using h
        simp only [List.map_cons, if_neg hp, mapGet_cons]
        exact ih hany2
  · rename_i hany
    have hfalse : m.any (fun p => p.1 == k) = false := Bool.eq_false_iff.mpr hany
    have hfind : m.find? (fun p => p.1 == k) = none := by
      rw [List.find?_eq_none]
      intro p hp
      have h2 := List.any_eq_false.mp hfalse p hp
      simpa using h2
    unfold mapGet
    rw [List.find?_append, hfind]
    simp [List.find?_cons]

theorem linkCmd_get_self (m : CmdMap) (k a : String) :
    mapGet (linkCmd m k a) k
      = (mapGet m k).map (fun c => { c with promptFilePath := some a }) := by
  induction m with
  | nil => rfl
  | cons p ps ih =>
    unfold linkCmd at ih ⊢
    by_cases hp : p.1 = k
    · simp [List.map_cons, mapGet_cons, hp]
    · simp only [List.map_cons, if_neg hp, mapGet_cons]
      exact ih

theorem linkCmd_id_of_none (m : CmdMap) (k a : String)
    (h : mapGet m k = none) : linkCmd m k a = m := by
  induction m with
  | nil => rfl
  | cons p ps ih =>
    rw [mapGet_cons] at h
    by_cases hp : p.1 = k
    · rw [if_pos hp] at h; simp at h
    · rw [if_neg hp] at h
      unfold linkCmd at ih ⊢
      rw [List.map_cons, if_neg hp, ih h]

/-- Claim C9: for a prompt-style file discovered in `.github/prompts` whose
name starts with `bmad` and ends with `.prompt.md`, stripping the suffix gives
an external name; the file is always recorded in the discovered prompt-file
map, the `hasCopilotFiles` flag is set, the command stored under that name (if
any) gets its linked-external-file field set to the file's absolute path, and
when no such command exists the command map is left entirely unchanged — no
error in either case. -/
theorem prompt_link_pass_links_or_records (fs : FileSys) (root : String)
    (st : RegistryState) (f : String)
    (h1 : jsStartsWith f "bmad" = true)
    (h2 : jsEndsWith f ".prompt.md" = true)
    (h3 : fs.pathExists (joinP (joinP root ".github") "prompts") = true)
    (h4 : fs.listDir (joinP (joinP root ".github") "prompts")
      = some [{ name := f, isDir := false }])
    (h5 : fs.pathExists (joinP (joinP root ".github") "agents") = false) :
    mapGet (scanCopilotPromptFiles fs root st).promptFiles
        (stripSuffix f ".prompt.md")
      = some (joinP (joinP (joinP root ".github") "prompts") f) ∧
    (scanCopilotPromptFiles fs root st).hasCopilotFiles = true ∧
    mapGet (scanCopilotPromptFiles fs root st).commands
        (stripSuffix f ".prompt.md")
      = (mapGet st.commands (stripSuffix f ".prompt.md")).map
          (fun c => { c with promptFilePath := (some
            (joinP (joinP (joinP root ".github") "prompts") f)) }) ∧
    (mapGet st.commands (stripSuffix f ".prompt.md") = none →
      (scanCopilotPromptFiles fs root st).commands = st.commands) := by
  have hred : scanCopilotPromptFiles fs root st =
      { st with
          promptFiles := jsSet st.promptFiles (stripSuffix f ".prompt.md")
            (joinP (joinP (joinP root ".github") "prompts") f)
          commands := linkCmd st.commands (stripSuffix f ".prompt.md")
            (joinP (joinP (joinP root ".github") "prompts") f)
          hasCopilotFiles := true } := by
    simp only [scanCopilotPromptFiles, h3, h4, h5]
    simp [linkPromptFile, h1, h2]
  rw [hred]
  exact ⟨jsSet_get_self _ _ _, rfl, linkCmd_get_self _ _ _,
    fun hnone => by
      simpa using linkCmd_id_of_none st.commands (stripSuffix f ".prompt.md")
        (joinP (joinP (joinP root ".github") "prompts") f) hnone⟩

/-- Witness for C9: the prompt file `bmad-bmm-create-prd.prompt.md` of `fsB`
is recorded and linked onto the existing `bmad-bmm-create-prd` command of
snapshot `stW`. -/
theorem prompt_link_pass_links_or_records_witness :
    (jsStartsWith "bmad-bmm-create-prd.prompt.md" "bmad" = true ∧
      jsEndsWith "bmad-bmm-create-prd.prompt.md" ".prompt.md" = true ∧
      fsB.pathExists (joinP (joinP "/w" ".github") "prompts") = true ∧
      fsB.listDir (joinP (joinP "/w" ".github") "prompts")
        = some [{ name := "bmad-bmm-create-prd.prompt.md", isDir := false }] ∧
      fsB.pathExists (joinP (joinP "/w" ".github") "agents") = false) ∧
    (mapGet (scanCopilotPromptFiles fsB "/w" stW).promptFiles
        (stripSuffix "bmad-bmm-create-prd.prompt.md" ".prompt.md")
      = some (joinP (joinP (joinP "/w" ".github") "prompts")
          "bmad-bmm-create-prd.prompt.md") ∧
    (scanCopilotPromptFiles fsB "/w" stW).hasCopilotFiles = true ∧
    mapGet (scanCopilotPromptFiles fsB "/w" stW).commands
        (stripSuffix "bmad-bmm-create-prd.prompt.md" ".prompt.md")
      = (mapGet stW.commands
          (stripSuffix "bmad-bmm-create-prd.prompt.md" ".prompt.md")).map
          (fun c => { c with promptFilePath := (some
            (joinP (joinP (joinP "/w" ".github") "prompts")
              "bmad-bmm-create-prd.prompt.md")) }) ∧
    (mapGet stW.commands
        (stripSuffix "bmad-bmm-create-prd.prompt.md" ".prompt.md") = none →
      (scanCopilotPromptFiles fsB "/w" stW).commands = stW.commands)) :=
  ⟨⟨by decide, by decide, by decide, by decide, by decide⟩,
    prompt_link_pass_links_or_records fsB "/w" stW
      "bmad-bmm-create-prd.prompt.md"
      (by decide) (by decide) (by decide) (by decide) (by decide)⟩

theorem splitCh_ne_nil (sep : Char) (l : List Char) : splitCh sep l ≠ [] := by
  cases l with
  | nil => simp [splitCh]
  | cons c cs =>
    simp only [splitCh]
    split <;> simp

theorem splitCh_cons_sep (sep : Char) (cs : List Char) :
    splitCh sep (sep :: cs) = [] :: splitCh sep cs := by
  simp [splitCh]

theorem splitCh_cons_ne (sep c : Char) (cs : List Char) (hc : c ≠ sep) :
    splitCh sep (c :: cs)
      = (c :: (splitCh sep cs).headI) :: (splitCh sep cs).tail := by
  simp [splitCh, hc]

theorem joinCh_cons_cons (sep : Char) (t u : List Char)
    (us : List (List Char)) :
    joinCh sep (t :: u :: us) = t ++ sep :: joinCh sep (u :: us) := rfl

theorem joinD_cons_cons (t u : List Char) (us : List (List Char)) :
    joinD (t :: u :: us) = t ++ '-' :: joinD (u :: us) := rfl

theorem joinCh_splitCh (sep : Char) (l : List Char) :
    joinCh sep (splitCh sep l) = l := by
  induction l with
  | nil => rfl
  | cons c cs ih =>
    rcases hs : splitCh sep cs with _ | ⟨t, ts⟩
    · exact absurd hs (splitCh_ne_nil sep cs)
    · rw [hs] at ih
      by_cases hc : c = sep
      · subst hc
        rw [splitCh_cons_sep, hs, joinCh_cons_cons, ih]
        rfl
      · rw [splitCh_cons_ne sep c cs hc, hs]
        simp only [List.headI, List.tail_cons]
        cases ts with
        | nil =>
          have ht : joinCh sep [t] = t := rfl
          rw [ht] at ih
          show c :: t = c :: cs
          rw [ih]
        | cons u us =>
          rw [joinCh_cons_cons] at ih ⊢
          rw [List.cons_append, ih]

theorem splitCh_append_sep (sep : Char) (a b : List Char) :
    splitCh sep (a ++ sep :: b) = splitCh sep a ++ splitCh sep b := by
  induction a with
  | nil => simp [splitCh_cons_sep, splitCh]
  | cons c cs ih =>
    by_cases hc : c = sep
    · subst hc
      rw [List.cons_append, splitCh_cons_sep, splitCh_cons_sep, ih,
        List.cons_append]
    · rw [List.cons_append, splitCh_cons_ne sep c _ hc,
        splitCh_cons_ne sep c cs hc, ih]
      rcases hs : splitCh sep cs with _ | ⟨t, ts⟩
      · exact absurd hs (splitCh_ne_nil sep cs)
      · simp

theorem splitCh_no_sep (sep : Char) (l : List Char)
    (h : ∀ c ∈ l, c ≠ sep) : splitCh sep l = [l] := by
  induction l with
  | nil => rfl
  | cons c cs ih =>
    have hc : c ≠ sep := h c (List.mem_cons_self c cs)
    rw [splitCh_cons_ne sep c cs hc,
      ih (fun d hd => h d (List.mem_cons_of_mem c hd))]
    rfl

theorem mem_splitCh (sep : Char) (l : List Char) (t : List Char)
    (ht : t ∈ splitCh sep l) : ∀ c ∈ t, c ∈ l := by
  induction l generalizing t with
  | nil =>
    intro c hc
    simp [splitCh] at ht
    subst ht
    simp at hc
  | cons a as ih =>
    intro c hc
    by_cases ha : a = sep
    · subst ha
      rw [splitCh_cons_sep] at ht
      rcases List.mem_cons.mp ht with h1 | h2
      · subst h1; simp at hc
      · exact List.mem_cons_of_mem a (ih t h2 c hc)
    · rw [splitCh_cons_ne sep a as ha] at ht
      rcases hs : splitCh sep as with _ | ⟨u, us⟩
      · exact absurd hs (splitCh_ne_nil sep as)
      · rw [hs] at ht
        simp only [List.headI, List.tail_cons] at ht
        rcases List.mem_cons.mp ht with h1 | h2
        · subst h1
          rcases List.mem_cons.mp hc with h3 | h4
          · rw [h3]; exact List.mem_cons_self _ _
          · exact List.mem_cons_of_mem a
              (ih u (hs ▸ List.mem_cons_self u us) c h4)
        · exact List.mem_cons_of_mem a
            (ih t (hs ▸ List.mem_cons_of_mem u h2) c hc)

theorem mem_joinCh (sep : Char) (ts : List (List Char)) (c : Char)
    (hc : c ∈ joinCh sep ts) : c = sep ∨ ∃ t ∈ ts, c ∈ t := by
  induction ts with
  | nil => simp [joinCh] at hc
  | cons t us ih =>
    cases us with
    | nil =>
      right
      exact ⟨t, List.mem_cons_self t [], hc⟩
    | cons u vs =>
      rw [joinCh_cons_cons] at hc
      rcases List.mem_append.mp hc with h1 | h2
      · right; exact ⟨t, List.mem_cons_self t _, h1⟩
      · rcases List.mem_cons.mp h2 with h3 | h4
        · left; exact h3
        · rcases ih h4 with h5 | ⟨w, hw, hcw⟩
          · left; exact h5
          · right; exact ⟨w, List.mem_cons_of_mem t hw, hcw⟩

theorem replC_ne_colon (c : Char) : replC c ≠ ':' := by
  unfold replC
  split
  · simp
  · assumption

theorem map_replC_no_colon (l : List Char) : ∀ c ∈ l.map replC, c ≠ ':' := by
  intro c hc
  rcases List.mem_map.mp hc with ⟨d, _, hd⟩
  exact hd ▸ replC_ne_colon d

theorem map_replC_id (l : List Char) (h : ∀ c ∈ l, c ≠ ':') :
    l.map replC = l := by
  induction l with
  | nil => rfl
  | cons c cs ih =>
    rw [List.map_cons, ih (fun d hd => h d (List.mem_cons_of_mem c hd))]
    have hc : c ≠ ':' := h c (List.mem_cons_self c cs)
    simp [replC, hc]

theorem slashToCliParts_agent_long (clean p2 p3 : List Char)
    (ps3 : List (List Char)) :
    slashToCliParts clean ("bmad".data :: "agent".data :: p2 :: p3 :: ps3)
      = "bmad:agent:".data ++ p2 ++ ':' :: joinD (p3 :: ps3) := by
  simp [slashToCliParts]

theorem slashToCliParts_agent_short (clean p2 : List Char) :
    slashToCliParts clean ("bmad".data :: "agent".data :: [p2])
      = "bmad:agent:".data ++ joinD [p2] := by
  simp [slashToCliParts]

theorem slashToCliParts_module (clean p1 p2 : List Char)
    (ps : List (List Char)) (h : p1 ≠ "agent".data) :
    slashToCliParts clean ("bmad".data :: p1 :: p2 :: ps)
      = "bmad:".data ++ p1 ++ ':' :: joinD (p2 :: ps) := by
  simp [slashToCliParts, h]

theorem slashToCliParts_round (x : List Char) (q : List (List Char))
    (hx : ∀ c ∈ x, c ≠ ':')
    (hsplit : splitD x = "bmad".data :: q)
    (hlen : 2 ≤ q.length) :
    (slashToCliL x).map replC = x := by
  rcases q with _ | ⟨q1, rest⟩
  · simp at hlen
  rcases rest with _ | ⟨q2, qs⟩
  · simp at hlen
  have hsplit2 : splitCh '-' x = "bmad".data :: q1 :: q2 :: qs := hsplit
  have hxeq : x = "bmad".data ++ '-' :: joinCh '-' (q1 :: q2 :: qs) := by
    have hj := joinCh_splitCh '-' x
    rw [hsplit2, joinCh_cons_cons] at hj
    exact hj.symm
  have hstrip : stripSlash x = x := by
    rw [hxeq]; rfl
  have htok : ∀ t ∈ ("bmad".data :: q1 :: q2 :: qs : List (List Char)),
      ∀ c ∈ t, c ≠ ':' := by
    intro t ht c hc
    exact hx c (mem_splitCh '-' x t (by rw [hsplit2]; exact ht) c hc)
  have hq1 : ∀ c ∈ q1, c ≠ ':' := htok q1 (by simp)
  have hq2 : ∀ c ∈ q2, c ≠ ':' := htok q2 (by simp)
  have hjoinD : ∀ ts : List (List Char),
      (∀ t ∈ ts, ∀ c ∈ t, c ≠ ':') →
      (joinD ts).map replC = joinD ts := by
    intro ts hts
    apply map_replC_id
    intro c hc
    rcases mem_joinCh '-' ts c hc with h1 | ⟨t, htt, hct⟩
    · rw [h1]; decide
    · exact hts t htt c hct
  have hxeqD : x = "bmad".data ++ '-' :: joinD (q1 :: q2 :: qs) := hxeq
  have hstep : slashToCliL x
      = slashToCliParts x ("bmad".data :: q1 :: q2 :: qs) := by
    unfold slashToCliL
    rw [hstrip]
    have : splitD x = "bmad".data :: q1 :: q2 :: qs := hsplit2
    rw [this]
  rw [hstep]
  by_cases hag : q1 = "agent".data
  · subst hag
    cases qs with
    | nil =>
      rw [slashToCliParts_agent_short,
        show joinD [q2] = q2 from rfl,
        List.map_append, map_replC_id q2 hq2,
        show ("bmad:agent:".data).map replC
          = "bmad".data ++ '-' :: ("agent".data ++ ['-']) from by decide,
        hxeqD,
        show joinD ("agent".data :: [q2]) = "agent".data ++ '-' :: q2 from rfl]
      simp [List.append_assoc]
    | cons q3 qss =>
      have hq3s : ∀ t ∈ (q3 :: qss : List (List Char)), ∀ c ∈ t, c ≠ ':' := by
        intro t ht
        exact htok t (by simp [List.mem_cons.mp ht])
      rw [slashToCliParts_agent_long,
        show (':' :: joinD (q3 :: qss)) = [':'] ++ joinD (q3 :: qss) from rfl,
        List.map_append, List.map_append, List.map_append,
        map_replC_id q2 hq2, hjoinD _ hq3s,
        show ("bmad:agent:".data).map replC
          = "bmad".data ++ '-' :: ("agent".data ++ ['-']) from by decide,
        show ([':'] : List Char).map replC = ['-'] from by decide,
        hxeqD, joinD_cons_cons, joinD_cons_cons]
      simp [List.append_assoc]
  · have hq2s : ∀ t ∈ (q2 :: qs : List (List Char)), ∀ c ∈ t, c ≠ ':' := by
      intro t ht
      exact htok t (by simp [List.mem_cons.mp ht])
    rw [slashToCliParts_module _ _ _ _ hag,
      show (':' :: joinD (q2 :: qs)) = [':'] ++ joinD (q2 :: qs) from rfl,
      List.map_append, List.map_append, List.map_append,
      map_replC_id q1 hq1, hjoinD _ hq2s,
      show ("bmad:".data).map replC = "bmad".data ++ ['-'] from by decide,
      show ([':'] : List Char).map replC = ['-'] from by decide,
      hxeqD, joinD_cons_cons]
    simp [List.append_assoc]

/-- Claim C4: round-trip of the naming codec — for every internal syntax
string built from the fixed prefix, a dash-free module and a dash-free command
name, letting `x` be its external name (`cliToSlash`), converting `x` back to
internal syntax (`slashToCli`) and to an external name again yields `x`:
`cliToSlash (slashToCli (cliToSlash s)) = cliToSlash s`. -/
theorem naming_codec_round_trip (m n : String)
    (_hm : ∀ c ∈ m.data, c ≠ '-') (_hn : ∀ c ∈ n.data, c ≠ '-') :
    cliToSlash (slashToCli (cliToSlash ("bmad:" ++ m ++ ":" ++ n)))
      = cliToSlash ("bmad:" ++ m ++ ":" ++ n) := by
  have hxdata : (cliToSlash ("bmad:" ++ m ++ ":" ++ n)).data
      = "bmad".data ++ '-' :: (m.data.map replC ++ '-' :: n.data.map replC) := by
    show (("bmad:" ++ m ++ ":" ++ n).data).map replC = _
    simp only [data_append, List.map_append]
    rw [show ("bmad:".data).map replC = "bmad".data ++ ['-'] from by decide,
      show (":".data).map replC = ['-'] from by decide]
    simp [List.append_assoc]
  have hsplit : splitD (cliToSlash ("bmad:" ++ m ++ ":" ++ n)).data
      = "bmad".data ::
        (splitCh '-' (m.data.map replC) ++ splitCh '-' (n.data.map replC)) := by
    show splitCh '-' (cliToSlash ("bmad:" ++ m ++ ":" ++ n)).data = _
    rw [hxdata, splitCh_append_sep '-' ("bmad".data),
      splitCh_append_sep '-' (m.data.map replC),
      splitCh_no_sep '-' "bmad".data (by decide)]
    rfl
  have hcolon : ∀ c ∈ (cliToSlash ("bmad:" ++ m ++ ":" ++ n)).data, c ≠ ':' :=
    map_replC_no_colon _
  have hlen : 2 ≤ (splitCh '-' (m.data.map replC)
      ++ splitCh '-' (n.data.map replC)).length := by
    rw [List.length_append]
    have h1 := List.length_pos.mpr (splitCh_ne_nil '-' (m.data.map replC))
    have h2 := List.length_pos.mpr (splitCh_ne_nil '-' (n.data.map replC))
    omega
  have hG := slashToCliParts_round _ _ hcolon hsplit hlen
  show String.mk ((slashToCliL (cliToSlash ("bmad:" ++ m ++ ":" ++ n)).data).map
    replC) = cliToSlash ("bmad:" ++ m ++ ":" ++ n)
  rw [hG]

/-- Witness for C4 at module `bmm` and command name `prd`. -/
theorem naming_codec_round_trip_witness :
    (∀ c ∈ ("bmm" : String).data, c ≠ '-') ∧
      (∀ c ∈ ("prd" : String).data, c ≠ '-') ∧
      cliToSlash (slashToCli (cliToSlash ("bmad:" ++ "bmm" ++ ":" ++ "prd")))
        = cliToSlash ("bmad:" ++ "bmm" ++ ":" ++ "prd") :=
  ⟨by decide, by decide, naming_codec_round_trip "bmm" "prd" (by decide) (by decide)⟩

theorem parseCsvLineAux_ne_nil (b : Bool) (cur l : List Char) :
    parseCsvLineAux b cur l ≠ [] := by
  induction b, cur, l using parseCsvLineAux.induct <;>
    simp [parseCsvLineAux] <;> assumption

theorem parseCsvLine_ne_nil (line : String) : parseCsvLine line ≠ [] := by
  unfold parseCsvLine
  cases h : parseCsvLineAux false [] line.data with
  | nil => exact absurd h (parseCsvLineAux_ne_nil _ _ _)
  | cons a as => simp

theorem filterMap_isSome_length {α β : Type} (g : α → Option β) :
    ∀ l : List α, (∀ a ∈ l, (g a).isSome) →
      (l.filterMap g).length = l.length := by
  intro l
  induction l with
  | nil => intro _; rfl
  | cons a as ih =>
    intro h
    rw [List.filterMap_cons]
    rcases hg : g a with _ | b
    · have h2 := h a (List.mem_cons_self a as)
      rw [hg] at h2
      simp at h2
    · simp [ih (fun x hx => h x (List.mem_cons_of_mem a hx))]

theorem jsSet_of_not_mem {α : Type} (m : List (String × α)) (k : String)
    (v : α) (h : m.any (fun p => p.1 == k) = false) :
    jsSet m k v = m ++ [(k, v)] := by
  simp [jsSet, h]

theorem buildRecordFrom_keys :
    ∀ (hs vs : List String) (r : List (String × String)),
      (r.map Prod.fst ++ hs).Nodup →
      (buildRecordFrom hs vs r).map Prod.fst = r.map Prod.fst ++ hs := by
  intro hs
  induction hs with
  | nil => intro vs r _; simp [buildRecordFrom]
  | cons hh ht ih =>
    intro vs r hnd
    have hnotin : hh ∉ r.map Prod.fst := by
      rcases List.nodup_append.mp hnd with ⟨_, _, hdis⟩
      intro hmem
      exact hdis hmem (List.mem_cons_self hh ht)
    have hany : r.any (fun p => p.1 == hh) = false := by
      rw [List.any_eq_false]
      intro p hp
      simp only [beq_iff_eq]
      intro he
      exact hnotin (he ▸ List.mem_map_of_mem Prod.fst hp)
    have hnd2 : ((r ++ [(hh, jsTrim (vs.headD ""))]).map Prod.fst ++ ht).Nodup := by
      rw [List.map_append]
      simp only [List.map_cons, List.map_nil]
      rw [List.append_assoc]
      simpa using hnd
    simp only [buildRecordFrom]
    rw [jsSet_of_not_mem _ _ _ hany, ih (vs.drop 1) _ hnd2, List.map_append]
    simp

theorem buildRecord_keys (hs vs : List String) (hnd : hs.Nodup) :
    (buildRecord hs vs).map Prod.fst = hs := by
  have h := buildRecordFrom_keys hs vs [] (by simpa using hnd)
  simpa [buildRecord] using h

/-- Claim C6: for every CSV text whose filtered line list consists of a header
line followed by `N` data lines, `parseCsv` returns exactly `N` records, and —
when the trimmed header tokens are distinct (a consistent header) — every
returned record has exactly the trimmed header tokens of that first non-empty,
non-comment line as its keys, in header order. -/
theorem parseCsv_count_and_keys (csv : String) (hdr : String)
    (rows : List String) (hl : csvLines csv = hdr :: rows) :
    (parseCsv csv).length = rows.length ∧
    (((parseCsvLine hdr).map jsTrim).Nodup →
      ∀ r ∈ parseCsv csv, r.map Prod.fst = (parseCsvLine hdr).map jsTrim) := by
  have hform : parseCsv csv = rows.filterMap (fun line =>
      if (parseCsvLine line).isEmpty then none
      else some (buildRecord ((parseCsvLine hdr).map jsTrim)
        (parseCsvLine line))) := by
    unfold parseCsv
    rw [hl]
    cases rows with
    | nil => simp
    | cons r0 rs => simp
  have hsome : ∀ line ∈ rows, (if (parseCsvLine line).isEmpty then none
      else some (buildRecord ((parseCsvLine hdr).map jsTrim)
        (parseCsvLine line))).isSome := by
    intro line _
    cases h : parseCsvLine line with
    | nil => exact absurd h (parseCsvLine_ne_nil line)
    | cons a as => simp [h]
  constructor
  · rw [hform]
    exact filterMap_isSome_length _ rows hsome
  · intro hnd r hr
    rw [hform] at hr
    rcases List.mem_filterMap.mp hr with ⟨line, _, hfl⟩
    rcases h : parseCsvLine line with _ | ⟨a, as⟩
    · exact absurd h (parseCsvLine_ne_nil line)
    · rw [if_neg (by simp [h])] at hfl
      rw [← Option.some.inj hfl]
      exact buildRecord_keys _ _ hnd

/-- Witness for C6 on the concrete one-row help catalog. -/
theorem parseCsv_count_and_keys_witness :
    csvLines helpCsvA
        = "module,command,description" :: ["bmm,bmad-bmm-create-prd,Create PRD"] ∧
      (parseCsv helpCsvA).length
        = (["bmm,bmad-bmm-create-prd,Create PRD"] : List String).length ∧
      ((parseCsvLine "module,command,description").map jsTrim).Nodup ∧
      recW ∈ parseCsv helpCsvA ∧
      recW.map Prod.fst = (parseCsvLine "module,command,description").map jsTrim :=
  ⟨by decide,
    (parseCsv_count_and_keys helpCsvA "module,command,description"
      ["bmm,bmad-bmm-create-prd,Create PRD"] (by decide)).1,
    by decide,
    by decide,
    (parseCsv_count_and_keys helpCsvA "module,command,description"
      ["bmm,bmad-bmm-create-prd,Create PRD"] (by decide)).2 (by decide)
      recW (by decide)⟩

end BmadSpec
